import Mathlib

/-!
# Verification of the embedding backfill job (generate_embeddings.py)

A shallow embedding of the single-module batch job that backfills the
`embedding` column of the `resource_embeddings` table.  JSON-ish payload
values are modelled by `Value`, payloads by `ResourceData`, table rows by
`Row`, and the database by a `List Row` together with explicit
transaction semantics (commit / rollback) inside `update_embeddings`.
The sentence-transformer model is external, so the embedding computation
is a parameter `f : String → Except String Vec`; a per-row failure of
`model.encode` is an `Except.error`.
-/

/-- A JSON-style value stored in a resource payload. -/
inductive Value where
  | vStr (s : String)
  | vBool (b : Bool)
  | vNull
deriving DecidableEq, Repr

/-- Rendering of a payload value inside a Python f-string (its `str()`). -/
def Value.toDisplay : Value → String
  | .vStr s => s
  | .vBool b => if b then "True" else "False"
  | .vNull => "None"

/-- Python truthiness of a payload value, as used by
`'Yes' if resource_data.get('has_public_ip') else 'No'`. -/
def Value.truthy : Value → Bool
  | .vStr s => !(s == "")
  | .vBool b => b
  | .vNull => false

/-- Python `repr` of a value, used by `str()` on a dict. -/
def Value.pyRepr : Value → String
  | .vStr s => "\x27" ++ s ++ "\x27"
  | .vBool b => if b then "True" else "False"
  | .vNull => "None"

/-- The `resource_data` payload handed to `format_resource_text`: either a
mapping (a Python dict, keys unique) or some non-mapping object, which the
embedding carries only through its textual `str()` dump. -/
inductive ResourceData where
  | dict (kvs : List (String × Value))
  | nonDict (dump : String)
deriving DecidableEq, Repr

/-- `dict.get(k)` without a default: the value at `k`, if present. -/
def dict_get (kvs : List (String × Value)) (k : String) : Option Value :=
  (kvs.find? (fun p => p.1 == k)).map (fun p => p.2)

/-- The text a field slot renders to: `resource_data.get(k, 'Unknown')`
interpolated into the f-string. -/
def fieldSlot (kvs : List (String × Value)) (k : String) : String :=
  match dict_get kvs k with
  | some v => v.toDisplay
  | none => "Unknown"

/-- The reachability slot: `'Yes' if resource_data.get('has_public_ip') else 'No'`. -/
def publicIpSlot (kvs : List (String × Value)) : String :=
  match dict_get kvs "has_public_ip" with
  | some v => if v.truthy then "Yes" else "No"
  | none => "No"

/-- The body of `format_resource_text`: the f-string template of
`generate_embeddings.py` lines 53-59.  The trailing `.strip()` of the
source is the identity here because the template starts with a letter and
ends with the Yes/No slot, so it is not modelled separately. -/
def renderDict (kvs : List (String × Value)) : String :=
  "EC2 Instance Configuration:" ++ "\n" ++
  ("Instance Type: " ++ fieldSlot kvs "instance_type") ++ "\n" ++
  ("State: " ++ fieldSlot kvs "state") ++ "\n" ++
  ("Environment: " ++ fieldSlot kvs "environment") ++ "\n" ++
  ("Team: " ++ fieldSlot kvs "team") ++ "\n" ++
  ("Region: " ++ fieldSlot kvs "region") ++ "\n" ++
  ("Public IP: " ++ publicIpSlot kvs)

/-- The `try` block of `format_resource_text`: on a mapping it renders the
template, on a non-mapping payload the attribute lookup `.get` raises. -/
def format_resource_body : ResourceData → Except String String
  | .dict kvs => .ok (renderDict kvs)
  | .nonDict _ => .error "AttributeError: get"

/-- Python `str(resource_data)`, the fallback dump of the payload. -/
def str_dump : ResourceData → String
  | .dict kvs =>
    "\x7b" ++ String.intercalate ", "
      (kvs.map (fun p => "\x27" ++ p.1 ++ "\x27: " ++ p.2.pyRepr)) ++ "\x7d"
  | .nonDict dump => dump

/-- `format_resource_text` (lines 50-62): render the template, and on any
exception fall back to `str(resource_data)`. -/
def format_resource_text (d : ResourceData) : String :=
  match format_resource_body d with
  | .ok s => s
  | .error _ => str_dump d

/-- `parts` occur as disjoint substrings of `s`, in the given order. -/
def isSeqInfix : List String → String → Prop
  | [], _ => True
  | p :: ps, s => ∃ pre rest, s = pre ++ p ++ rest ∧ isSeqInfix ps rest

instance {ε α : Type} [DecidableEq ε] [DecidableEq α] : DecidableEq (Except ε α) := fun x y =>
  match x, y with
  | .error e, .error f =>
    if h : e = f then .isTrue (congrArg Except.error h)
    else .isFalse (fun hc => h (Except.error.inj hc))
  | .error _, .ok _ => .isFalse (fun hc => Except.noConfusion hc)
  | .ok _, .error _ => .isFalse (fun hc => Except.noConfusion hc)
  | .ok a, .ok b =>
    if h : a = b then .isTrue (congrArg Except.ok h)
    else .isFalse (fun hc => h (Except.ok.inj hc))

/-- An embedding vector.  The numeric component type is irrelevant to the
job's control flow, so vectors are lists of integers. -/
abbrev Vec := List Int

/-- A row of the `resource_embeddings` table. -/
structure Row where
  id : Nat
  resource_type : String
  resource_id : String
  resource_data : ResourceData
  embedding : Option Vec
deriving DecidableEq, Repr

/-- The `resource_embeddings` table. -/
abbrev Table := List Row

/-- The exceptions the job can raise. -/
inductive PyError where
  | connError (msg : String)
  | nameError
  | embedError (msg : String)
deriving DecidableEq, Repr

/-- Insert one row, sorted, by ascending `id`. -/
def insertById (r : Row) : List Row → List Row
  | [] => [r]
  | x :: xs => if r.id ≤ x.id then r :: x :: xs else x :: insertById r xs

/-- `SELECT id, resource_type, resource_id, resource_data FROM
resource_embeddings ORDER BY id` (lines 75-79): all rows, in ascending
`id` order.  There is no filter on the `embedding` column. -/
def fetch_resources (t : Table) : List Row :=
  t.foldr insertById []

/-- `UPDATE resource_embeddings SET embedding = v WHERE id = i`
(lines 102-106): every row whose `id` matches gets the new vector. -/
def updateById (t : Table) (i : Nat) (v : Vec) : Table :=
  t.map (fun r => if r.id = i then { r with embedding := some v } else r)

/-- `True` iff the table already holds a row with this
`(resource_type, resource_id)` pair. -/
def hasPair (t : Table) (rt rid : String) : Bool :=
  t.any (fun r => r.resource_type == rt && r.resource_id == rid)

/-- The next `id` the storage assigns to an inserted row. -/
def fresh_id (t : Table) : Nat :=
  t.foldl (fun m r => max m r.id) 0 + 1

/-- `INSERT ... VALUES (rt, rid, rd, NULL) ON CONFLICT (resource_type,
resource_id) DO NOTHING` (lines 158-162), relying on the unique
constraint on the pair. -/
def insert_on_conflict (t : Table) (rt rid : String) (rd : ResourceData) : Table :=
  if hasPair t rt rid then t
  else t ++ [⟨fresh_id t, rt, rid, rd, none⟩]

/-- The three sample resources of `create_sample_embeddings` (lines 130-155). -/
def sample_resources : List (String × String × ResourceData) :=
  [ ("ec2_instance", "i-sample-1", .dict
      [ ("instance_type", .vStr "t3.micro"), ("state", .vStr "running"),
        ("environment", .vStr "production"), ("team", .vStr "backend"),
        ("region", .vStr "us-east-1"), ("has_public_ip", .vBool true) ]),
    ("ec2_instance", "i-sample-2", .dict
      [ ("instance_type", .vStr "t3.small"), ("state", .vStr "running"),
        ("environment", .vStr "production"), ("team", .vStr "data"),
        ("region", .vStr "us-east-1"), ("has_public_ip", .vBool false) ]),
    ("ec2_instance", "i-sample-3", .dict
      [ ("instance_type", .vStr "t3.medium"), ("state", .vStr "stopped"),
        ("environment", .vStr "development"), ("team", .vStr "frontend"),
        ("region", .vStr "us-west-2"), ("has_public_ip", .vBool true) ]) ]

/-- The seeding loop (lines 157-162): left fold of the conflict-avoiding
inserts over the sample list. -/
def seed_fold : Table → List (String × String × ResourceData) → Table
  | t, [] => t
  | t, x :: xs => seed_fold (insert_on_conflict t x.1 x.2.1 x.2.2) xs

/-- `create_sample_embeddings(cursor)` (lines 126-165): issue the three
conflict-avoiding inserts on the caller's cursor, then evaluate
`conn.commit()`.  The name `conn` is unbound in the method's scope (it is
a local of `update_embeddings`, and no global of that name exists), so
after the inserts the method always raises `NameError`.  The result is
the table as the inserts leave it inside the open transaction, paired
with the raised error. -/
def create_sample_embeddings (t : Table) : Table × Except PyError Unit :=
  (seed_fold t sample_resources, .error .nameError)

/-- The per-row body of the backfill loop (lines 91-108): format the
row's payload, compute its embedding, and issue the `UPDATE` keyed by the
row's `id`; stop with the exception if the embedding computation raises.
The rows are processed in the order of the fetched list. -/
def processRows (f : String → Except String Vec) : Table → List Row → Except String Table
  | w, [] => .ok w
  | w, r :: rs =>
    match f (format_resource_text r.resource_data) with
    | .error e => .error e
    | .ok v => processRows f (updateById w r.id v) rs

/-- `update_embeddings` (lines 64-124) acting on the durable table:
connect, fetch, seed if empty, loop, commit; on any exception roll the
transaction back and re-raise.  `connect` is the outcome of
`psycopg2.connect`, `f` the embedding computation.  Returns the raised
or ok result together with the durable table after the run (the working
table becomes durable only at `conn.commit()`, line 111). -/
def update_embeddings (connect : Except String Unit) (f : String → Except String Vec)
    (t : Table) : Except PyError Unit × Table :=
  match connect with
  | .error m => (.error (.connError m), t)
  | .ok _ =>
    let fetched := fetch_resources t
    if fetched.isEmpty then
      match (create_sample_embeddings t).2 with
      | .error e => (.error e, t)
      | .ok _ => (.error .nameError, t)
    else
      match processRows f t fetched with
      | .error m => (.error (.embedError m), t)
      | .ok w => (.ok (), w)

/-- The verification query of `verify_embeddings` (lines 171-180):
`COUNT(*)`, `COUNT(embedding)` and
`COUNT(*) FILTER (WHERE embedding IS NOT NULL)`. -/
def verify_embeddings (t : Table) : Nat × Nat × Nat :=
  (t.length,
   t.countP (fun r => r.embedding.isSome),
   (t.filter (fun r => !(r.embedding == none))).length)

/-- `main` (lines 209-234): load the model, run `update_embeddings`, and
exit `0`; any exception is caught and turns into `sys.exit(1)`.
`loadModel` is the outcome of `generator.load_model()`.  Returns the
process exit status and the durable table. -/
def main_run (loadModel : Except String Unit) (connect : Except String Unit)
    (f : String → Except String Vec) (t : Table) : Nat × Table :=
  match loadModel with
  | .error _ => (1, t)
  | .ok _ =>
    match update_embeddings connect f t with
    | (.error _, t2) => (1, t2)
    | (.ok _, t2) => (0, t2)

/-! ## Helper lemmas -/

theorem string_empty_append (s : String) : "" ++ s = s := rfl

/-- Newline-joined concatenation of text parts, matching the template shape. -/
def joinParts : List String → String
  | [] => ""
  | [p] => p
  | p :: ps => p ++ "\n" ++ joinParts ps

theorem isSeqInfix_append_left (ps : List String) (a s : String)
    (h : isSeqInfix ps s) : isSeqInfix ps (a ++ s) := by
  cases ps with
  | nil => trivial
  | cons p ps =>
    obtain ⟨pre, rest, heq, htail⟩ := h
    exact ⟨a ++ pre, rest, by rw [heq]; simp [String.append_assoc], htail⟩

theorem isSeqInfix_join (ps : List String) : isSeqInfix ps (joinParts ps) := by
  induction ps with
  | nil => trivial
  | cons p ps ih =>
    cases ps with
    | nil =>
      exact ⟨"", "", by simp [joinParts, String.append_empty, string_empty_append], trivial⟩
    | cons q qs =>
      refine ⟨"", "\n" ++ joinParts (q :: qs), ?_, ?_⟩
      · simp [joinParts, String.append_assoc, string_empty_append]
      · exact isSeqInfix_append_left _ _ _ ih

theorem insertById_perm (r : Row) (xs : List Row) : (insertById r xs).Perm (r :: xs) := by
  induction xs with
  | nil => exact List.Perm.refl _
  | cons x xs ih =>
    by_cases h : r.id ≤ x.id
    · simp [insertById, h]
    · simp only [insertById, h, if_false]
      exact (ih.cons x).trans (List.Perm.swap r x xs)

theorem fetch_resources_perm (t : Table) : (fetch_resources t).Perm t := by
  induction t with
  | nil => exact List.Perm.refl _
  | cons r rs ih =>
    exact (insertById_perm r (rs.foldr insertById [])).trans (ih.cons r)

theorem insertById_sorted (r : Row) (xs : List Row)
    (h : xs.Pairwise (fun a b => a.id ≤ b.id)) :
    (insertById r xs).Pairwise (fun a b => a.id ≤ b.id) := by
  induction xs with
  | nil => simp [insertById]
  | cons x xs ih =>
    rcases List.pairwise_cons.mp h with ⟨hx, hxs⟩
    by_cases hle : r.id ≤ x.id
    · simp only [insertById, hle, if_true]
      refine List.pairwise_cons.mpr ⟨?_, h⟩
      intro b hb
      rcases List.mem_cons.mp hb with hb2 | hb2
      · subst hb2; exact hle
      · exact Nat.le_trans hle (hx b hb2)
    · simp only [insertById, hle, if_false]
      refine List.pairwise_cons.mpr ⟨?_, ih hxs⟩
      intro b hb
      rcases List.mem_cons.mp ((insertById_perm r xs).mem_iff.mp hb) with hb2 | hb2
      · subst hb2
        exact Nat.le_of_lt (Nat.lt_of_not_le hle)
      · exact hx b hb2

theorem fetch_resources_sorted (t : Table) :
    (fetch_resources t).Pairwise (fun a b => a.id ≤ b.id) := by
  induction t with
  | nil => simp [fetch_resources]
  | cons r rs ih => exact insertById_sorted r _ ih

/-- What the loop writes into a row: its `embedding` column set to the
vector computed from its rendered text. -/
def applyEmb (f : String → Except String Vec) (r : Row) : Row :=
  match f (format_resource_text r.resource_data) with
  | .ok v => { r with embedding := some v }
  | .error _ => r

theorem map_map_congr (w : Table) (h g k : Row → Row)
    (hp : ∀ x ∈ w, g (h x) = k x) : (w.map h).map g = w.map k := by
  rw [List.map_map]
  exact List.map_congr_left hp

theorem processRows_ok (f : String → Except String Vec)
    (hf : ∀ s, ∃ v, f s = .ok v) :
    ∀ (rs : List Row) (w : Table),
    (rs.map Row.id).Nodup →
    (∀ r ∈ rs, ∀ x ∈ w, x.id = r.id → x.resource_data = r.resource_data) →
    processRows f w rs =
      .ok (w.map (fun x => if x.id ∈ rs.map Row.id then applyEmb f x else x)) := by
  intro rs
  induction rs with
  | nil =>
    intro w _ _
    simp [processRows]
  | cons r rs ih =>
    intro w hnd hdata
    obtain ⟨v, hv⟩ := hf (format_resource_text r.resource_data)
    have hnd2 : (rs.map Row.id).Nodup := (List.nodup_cons.mp (by simpa using hnd)).2
    have hrid : r.id ∉ rs.map Row.id := (List.nodup_cons.mp (by simpa using hnd)).1
    have hdata2 : ∀ r2 ∈ rs, ∀ x ∈ updateById w r.id v,
        x.id = r2.id → x.resource_data = r2.resource_data := by
      intro r2 hr2 x hx hid
      rcases List.mem_map.mp hx with ⟨x0, hx0, hx0e⟩
      have hid0 : x0.id = x.id := by
        by_cases hc : x0.id = r.id <;> simp [← hx0e, hc]
      have hdat0 : x0.resource_data = x.resource_data := by
        by_cases hc : x0.id = r.id <;> simp [← hx0e, hc]
      rw [← hdat0]
      exact hdata r2 (List.mem_cons_of_mem r hr2) x0 hx0 (hid0.trans hid)
    simp only [processRows, hv]
    rw [ih (updateById w r.id v) hnd2 hdata2]
    congr 1
    rw [updateById]
    apply map_map_congr
    intro x hx
    by_cases hid : x.id = r.id
    · have hdat : x.resource_data = r.resource_data :=
        hdata r (List.mem_cons_self r rs) x hx hid
      have happ : applyEmb f x = { x with embedding := some v } := by
        rw [applyEmb, hdat, hv]
      rw [if_pos hid]
      have hmem : ({ x with embedding := some v } : Row).id ∉ rs.map Row.id := by
        show x.id ∉ rs.map Row.id
        rw [hid]
        exact hrid
      rw [if_neg hmem]
      have hmem2 : x.id ∈ (r :: rs).map Row.id := by
        simp [hid]
      rw [if_pos hmem2, happ]
    · rw [if_neg hid]
      by_cases hm : x.id ∈ rs.map Row.id
      · rw [if_pos hm, if_pos (by simp [hm])]
      · rw [if_neg hm, if_neg (by simp [hid, hm])]

theorem update_embeddings_error_durable (c : Except String Unit)
    (f : String → Except String Vec) (t : Table) :
    (update_embeddings c f t).2 = t ∨ (update_embeddings c f t).1 = .ok () := by
  cases c with
  | error m => exact .inl rfl
  | ok u =>
    simp only [update_embeddings]
    cases hemp : (fetch_resources t).isEmpty with
    | true => simp [hemp, create_sample_embeddings]
    | false =>
      simp only [hemp, Bool.false_eq_true, if_false]
      cases hp : processRows f t (fetch_resources t) with
      | error m => simp [hp]
      | ok w => simp [hp]

theorem update_embeddings_success (f : String → Except String Vec)
    (hf : ∀ s, ∃ v, f s = .ok v) (t : Table)
    (hnd : (t.map Row.id).Nodup) (hne : t ≠ []) :
    update_embeddings (.ok ()) f t = (.ok (), t.map (applyEmb f)) := by
  have hperm := fetch_resources_perm t
  have hpermids : ((fetch_resources t).map Row.id).Perm (t.map Row.id) := hperm.map Row.id
  have hndf : ((fetch_resources t).map Row.id).Nodup := hpermids.nodup_iff.mpr hnd
  have hemp : (fetch_resources t).isEmpty = false := by
    cases hfe : fetch_resources t with
    | nil =>
      rw [hfe] at hperm
      exact absurd hperm.symm.eq_nil hne
    | cons a l => rfl
  have hdata : ∀ r ∈ fetch_resources t, ∀ x ∈ t,
      x.id = r.id → x.resource_data = r.resource_data := by
    intro r hr x hx hid
    have hrt : r ∈ t := hperm.mem_iff.mp hr
    have hxr : x = r := List.inj_on_of_nodup_map hnd hx hrt hid
    rw [hxr]
  have hpr := processRows_ok f hf (fetch_resources t) t hndf hdata
  simp only [update_embeddings, hemp, Bool.false_eq_true, if_false]
  rw [hpr]
  simp only []
  congr 1
  apply List.map_congr_left
  intro x hx
  rw [if_pos (hpermids.mem_iff.mpr (List.mem_map_of_mem Row.id hx))]

/-! ## Seeding lemmas -/

/-- The `(resource_type, resource_id)` pairs of a table, whose uniqueness
is the table's invariant. -/
def pairsOf (t : Table) : List (String × String) :=
  t.map (fun r => (r.resource_type, r.resource_id))

theorem hasPair_append_one (t : Table) (x : Row) (rt rid : String) :
    hasPair (t ++ [x]) rt rid =
      (hasPair t rt rid || (x.resource_type == rt && x.resource_id == rid)) := by
  simp [hasPair, List.any_append]

theorem hasPair_iff_mem_pairs (t : Table) (rt rid : String) :
    hasPair t rt rid = true ↔ (rt, rid) ∈ pairsOf t := by
  simp only [hasPair, pairsOf, List.any_eq_true, List.mem_map, Bool.and_eq_true, beq_iff_eq]
  constructor
  · rintro ⟨r, hr, h1, h2⟩
    exact ⟨r, hr, by rw [h1, h2]⟩
  · rintro ⟨r, hr, hp⟩
    rcases Prod.mk.injEq .. ▸ hp with h
    exact ⟨r, hr, (Prod.mk.injEq .. ▸ hp : _ ∧ _).1, (Prod.mk.injEq .. ▸ hp : _ ∧ _).2⟩

theorem hasPair_insert_self (t : Table) (rt rid : String) (rd : ResourceData) :
    hasPair (insert_on_conflict t rt rid rd) rt rid = true := by
  by_cases h : hasPair t rt rid <;>
    simp [insert_on_conflict, h, hasPair_append_one]

theorem hasPair_insert_mono (t : Table) (a b rt rid : String) (rd : ResourceData)
    (h : hasPair t a b = true) :
    hasPair (insert_on_conflict t rt rid rd) a b = true := by
  by_cases hc : hasPair t rt rid <;>
    simp [insert_on_conflict, hc, hasPair_append_one, h]

theorem insert_on_conflict_noop (t : Table) (rt rid : String) (rd : ResourceData)
    (h : hasPair t rt rid = true) : insert_on_conflict t rt rid rd = t := by
  simp [insert_on_conflict, h]

theorem hasPair_seed_fold_mono (l : List (String × String × ResourceData)) :
    ∀ (t : Table) (a b : String), hasPair t a b = true →
      hasPair (seed_fold t l) a b = true := by
  induction l with
  | nil => intro t a b h; exact h
  | cons y ys ih =>
    intro t a b h
    exact ih _ a b (hasPair_insert_mono t a b y.1 y.2.1 y.2.2 h)

theorem seed_fold_has_all (l : List (String × String × ResourceData)) :
    ∀ (t : Table), ∀ x ∈ l, hasPair (seed_fold t l) x.1 x.2.1 = true := by
  induction l with
  | nil => intro t x hx; cases hx
  | cons y ys ih =>
    intro t x hx
    rcases List.mem_cons.mp hx with h | h
    · subst h
      exact hasPair_seed_fold_mono ys _ x.1 x.2.1 (hasPair_insert_self t x.1 x.2.1 x.2.2)
    · exact ih _ x h

theorem seed_fold_noop (l : List (String × String × ResourceData)) :
    ∀ (t : Table), (∀ x ∈ l, hasPair t x.1 x.2.1 = true) → seed_fold t l = t := by
  induction l with
  | nil => intro t _; rfl
  | cons y ys ih =>
    intro t hall
    have hy : hasPair t y.1 y.2.1 = true := hall y (List.mem_cons_self y ys)
    show seed_fold (insert_on_conflict t y.1 y.2.1 y.2.2) ys = t
    rw [insert_on_conflict_noop t y.1 y.2.1 y.2.2 hy]
    exact ih t (fun x hx => hall x (List.mem_cons_of_mem y hx))

theorem insert_on_conflict_nodup (t : Table) (rt rid : String) (rd : ResourceData)
    (h : (pairsOf t).Nodup) : (pairsOf (insert_on_conflict t rt rid rd)).Nodup := by
  by_cases hc : hasPair t rt rid
  · rw [insert_on_conflict_noop t rt rid rd hc]
    exact h
  · have hnm : (rt, rid) ∉ pairsOf t := fun hm =>
      hc ((hasPair_iff_mem_pairs t rt rid).mpr hm)
    simp only [insert_on_conflict, hc, if_false, Bool.false_eq_true]
    rw [pairsOf, List.map_append]
    rw [List.nodup_append]
    refine ⟨h, by simp, ?_⟩
    intro a ha hb
    simp only [List.map_cons, List.map_nil, List.mem_singleton] at hb
    subst hb
    exact hnm ha

theorem seed_fold_nodup (l : List (String × String × ResourceData)) :
    ∀ (t : Table), (pairsOf t).Nodup → (pairsOf (seed_fold t l)).Nodup := by
  induction l with
  | nil => intro t h; exact h
  | cons y ys ih =>
    intro t h
    exact ih _ (insert_on_conflict_nodup t y.1 y.2.1 y.2.2 h)

/-! ## Claim theorems -/

/-- C4: for every resource payload mapping, `format_resource_text` renders
the six labelled slots in the fixed order (Instance Type, State,
Environment, Team, Region, Public IP); a present field's slot is the
field's displayed value, a missing field's slot is exactly "Unknown", and
the reachability slot is "No" when the flag is absent or falsy. -/
theorem format_fixed_order_slots : ∀ kvs : List (String × Value),
    isSeqInfix
      [ "EC2 Instance Configuration:",
        "Instance Type: " ++ fieldSlot kvs "instance_type",
        "State: " ++ fieldSlot kvs "state",
        "Environment: " ++ fieldSlot kvs "environment",
        "Team: " ++ fieldSlot kvs "team",
        "Region: " ++ fieldSlot kvs "region",
        "Public IP: " ++ publicIpSlot kvs ]
      (format_resource_text (.dict kvs)) ∧
    (∀ k, fieldSlot kvs k = ((dict_get kvs k).map Value.toDisplay).getD "Unknown") ∧
    (publicIpSlot kvs =
      if ((dict_get kvs "has_public_ip").map Value.truthy).getD false then "Yes" else "No") := by
  intro kvs
  refine ⟨?_, ?_, ?_⟩
  · have hfmt : format_resource_text (.dict kvs) = renderDict kvs := rfl
    have hjoin : renderDict kvs = joinParts
        [ "EC2 Instance Configuration:",
          "Instance Type: " ++ fieldSlot kvs "instance_type",
          "State: " ++ fieldSlot kvs "state",
          "Environment: " ++ fieldSlot kvs "environment",
          "Team: " ++ fieldSlot kvs "team",
          "Region: " ++ fieldSlot kvs "region",
          "Public IP: " ++ publicIpSlot kvs ] := by
      simp [renderDict, joinParts, String.append_assoc]
    rw [hfmt, hjoin]
    exact isSeqInfix_join _
  · intro k
    cases h : dict_get kvs k with
    | none => simp [fieldSlot, h]
    | some v => simp [fieldSlot, h]
  · cases h : dict_get kvs "has_public_ip" with
    | none => simp [publicIpSlot, h]
    | some v => simp [publicIpSlot, h]

/-- C5: `format_resource_text` is total.  On every mapping payload — in
particular one with missing fields — it returns the rendered template, and
on every non-mapping payload (a structural error inside the `try` block)
it returns the raw textual dump `str(resource_data)` instead of
propagating the error. -/
theorem format_resource_text_total :
    (∀ kvs, format_resource_text (.dict kvs) = renderDict kvs) ∧
    (∀ dmp, format_resource_body (.nonDict dmp) = .error "AttributeError: get" ∧
      format_resource_text (.nonDict dmp) = str_dump (.nonDict dmp)) :=
  ⟨fun _ => rfl, fun _ => ⟨rfl, rfl⟩⟩

/-- C7: in the verification query, `COUNT(embedding)` and
`COUNT(*) FILTER (WHERE embedding IS NOT NULL)` agree on every table
state. -/
theorem verify_counts_equal : ∀ t : Table,
    (verify_embeddings t).2.1 = (verify_embeddings t).2.2 := by
  intro t
  show t.countP (fun r => r.embedding.isSome) =
    (t.filter (fun r => !(r.embedding == none))).length
  rw [List.countP_eq_length_filter]
  congr 1
  apply List.filter_congr
  intro r _
  show r.embedding.isSome = !(r.embedding == none)
  cases r.embedding with
  | none => rfl
  | some v => rfl

/-- C9: the process exits with status 0 exactly when model load and the
whole backfill (connection, loop, commit) succeed; it exits with the
non-zero status 1 on model load failure, on connection failure, and on
any processing exception. -/
theorem main_exit_codes : ∀ (l c : Except String Unit)
    (f : String → Except String Vec) (t : Table),
    ((main_run l c f t).1 = 0 ↔ (l = .ok () ∧ (update_embeddings c f t).1 = .ok ())) ∧
    ((main_run l c f t).1 = 0 ∨ (main_run l c f t).1 = 1) ∧
    (∀ m, (main_run (.error m) c f t).1 = 1) ∧
    (∀ m, (main_run l (.error m) f t).1 = 1) := by
  intro l c f t
  refine ⟨?_, ?_, fun m => rfl, ?_⟩
  · cases l with
    | error m => simp [main_run]
    | ok u =>
      cases u
      rcases hu : update_embeddings c f t with ⟨res, t2⟩
      cases res with
      | error e => simp [main_run, hu]
      | ok v => cases v; simp [main_run, hu]
  · cases l with
    | error m => simp [main_run]
    | ok u =>
      cases u
      rcases hu : update_embeddings c f t with ⟨res, t2⟩
      cases res with
      | error e => simp [main_run, hu]
      | ok v => simp [main_run, hu]
  · intro m
    cases l with
    | error m2 => rfl
    | ok u => cases u; rfl

/-- C10: whenever the table is empty at run time, `update_embeddings`
raises — `create_sample_embeddings` issues its inserts and then evaluates
the unbound name `conn`, so the seeding path never returns normally — the
transaction is rolled back (the durable table stays empty, so no seeded
row receives an embedding), and the process exits non-zero. -/
theorem empty_table_seeding_raises :
    ∀ (f : String → Except String Vec) (t : Table),
      (create_sample_embeddings t).2 = .error .nameError ∧
      update_embeddings (.ok ()) f [] = (.error .nameError, []) ∧
      (main_run (.ok ()) (.ok ()) f []).1 = 1 := by
  intro f t
  exact ⟨rfl, rfl, rfl⟩

/-- C1: if any exception is raised during the backfill (including an
embedding failure partway through the rows), the transaction is rolled
back before the error propagates: the durable table is unchanged — zero
rows newly non-null, no partial commit — and the process exits non-zero. -/
theorem rollback_on_exception :
    ∀ (c : Except String Unit) (f : String → Except String Vec) (t : Table)
      (e : PyError),
      (update_embeddings c f t).1 = .error e →
      (update_embeddings c f t).2 = t ∧ (main_run (.ok ()) c f t).1 = 1 := by
  intro c f t e h
  have h2 : (update_embeddings c f t).2 = t := by
    rcases update_embeddings_error_durable c f t with hd | hok
    · exact hd
    · rw [hok] at h
      exact absurd h (by simp)
  refine ⟨h2, ?_⟩
  have hu : update_embeddings c f t = (.error e, t) := by
    rcases hue : update_embeddings c f t with ⟨res, t2⟩
    rw [hue] at h h2
    simp only at h h2
    rw [h, h2]
  simp [main_run, hu]

/-- The payload of the second sample row, `i-sample-2`. -/
def sample2_payload : ResourceData := .dict
  [ ("instance_type", .vStr "t3.small"), ("state", .vStr "running"),
    ("environment", .vStr "production"), ("team", .vStr "data"),
    ("region", .vStr "us-east-1"), ("has_public_ip", .vBool false) ]

/-- An embedding computation that throws exactly on the second of the
three seeded rows (the failure-injection scenario). -/
def failing_embed (s : String) : Except String Vec :=
  if s = format_resource_text sample2_payload then .error "boom" else .ok [1]

/-- The three seeded rows, ids 1, 2, 3, all embeddings null. -/
def sample_table : Table := (create_sample_embeddings []).1

theorem rollback_on_exception_witness :
    (update_embeddings (.ok ()) failing_embed sample_table).2 = sample_table ∧
    (main_run (.ok ()) (.ok ()) failing_embed sample_table).1 = 1 :=
  rollback_on_exception (.ok ()) failing_embed sample_table
    (.embedError "boom") (by decide)

/-- C2: what actually happens on an empty table.  The three inserts do
produce three null-embedding rows inside the transaction, but
`create_sample_embeddings` then raises `NameError` on the unbound `conn`,
so the run aborts: the durable table stays empty, no row ever receives an
embedding, and the process exits 1 — contradicting the claim that all 3
seeded rows end up with a non-null embedding. -/
theorem empty_table_run_aborts :
    (create_sample_embeddings []).1.length = 3 ∧
    (create_sample_embeddings []).1.countP (fun r => r.embedding.isSome) = 0 ∧
    update_embeddings (.ok ()) (fun _ => .ok [0]) [] = (.error .nameError, []) ∧
    (main_run (.ok ()) (.ok ()) (fun _ => .ok [0]) []).1 = 1 ∧
    (main_run (.ok ()) (.ok ()) (fun _ => .ok [0]) []).2 = [] := by
  refine ⟨by decide, by decide, rfl, rfl, rfl⟩

/-- A table whose single row already has a non-null embedding. -/
def existing_row : Row :=
  ⟨1, "ec2_instance", "i-existing", .dict [], some [5]⟩

/-- C3 counterexample: the fetch has no `WHERE embedding IS NULL` filter,
so a row whose embedding is already non-null is selected and, on a
successful run, rewritten — the selected set is not the null-embedding
set. -/
theorem fetch_reads_already_embedded_row :
    fetch_resources [existing_row] = [existing_row] ∧
    existing_row.embedding ≠ none ∧
    (update_embeddings (.ok ()) (fun _ => .ok [9]) [existing_row]).2 =
      [{ existing_row with embedding := some [9] }] := by
  refine ⟨rfl, by decide, by decide⟩

/-- C3 (amended): the fetch step reads all rows of the table, with no
filter on the embedding column, and on a successful run every fetched
row — including rows whose embedding was already non-null — has its
embedding column rewritten with the vector of its rendered text. -/
theorem fetch_selects_all_rows :
    ∀ (f : String → Except String Vec) (t : Table),
      (fetch_resources t).Perm t ∧
      ((∀ s, ∃ v, f s = .ok v) → (t.map Row.id).Nodup → t ≠ [] →
        (update_embeddings (.ok ()) f t).2 = t.map (applyEmb f)) := by
  intro f t
  refine ⟨fetch_resources_perm t, fun hf hnd hne => ?_⟩
  rw [update_embeddings_success f hf t hnd hne]

theorem fetch_selects_all_rows_witness :
    (update_embeddings (.ok ()) (fun _ => .ok [1]) sample_table).2 =
      sample_table.map (applyEmb (fun _ => .ok [1])) :=
  (fetch_selects_all_rows (fun _ => .ok [1]) sample_table).2
    (fun _ => ⟨[1], rfl⟩) (by decide) (by decide)

/-- C6: the seeding step is idempotent — running it twice over the same
table leaves the same table contents as running it once — and it
preserves uniqueness of the `(resource_type, resource_id)` pairs. -/
theorem seeding_idempotent : ∀ t : Table,
    (create_sample_embeddings (create_sample_embeddings t).1).1 =
      (create_sample_embeddings t).1 ∧
    ((pairsOf t).Nodup → (pairsOf (create_sample_embeddings t).1).Nodup) := by
  intro t
  constructor
  · show seed_fold (seed_fold t sample_resources) sample_resources =
      seed_fold t sample_resources
    exact seed_fold_noop sample_resources _ (seed_fold_has_all sample_resources t)
  · intro h
    exact seed_fold_nodup sample_resources t h

theorem seeding_idempotent_witness :
    (create_sample_embeddings (create_sample_embeddings []).1).1 =
      (create_sample_embeddings []).1 ∧
    (pairsOf (create_sample_embeddings []).1).Nodup :=
  ⟨(seeding_idempotent []).1, (seeding_idempotent []).2 (by decide)⟩

/-- C8: the backfill fetches exactly the table's rows in ascending `id`
order, and processes them in that order: on a successful run each row's
embedding column is updated, keyed by its primary key `id`, with the
vector computed from that row's rendered text (`applyEmb`). -/
theorem backfill_processes_in_id_order :
    ∀ (f : String → Except String Vec) (t : Table),
      (fetch_resources t).Pairwise (fun a b => a.id ≤ b.id) ∧
      (fetch_resources t).Perm t ∧
      ((∀ s, ∃ v, f s = .ok v) → (t.map Row.id).Nodup → t ≠ [] →
        update_embeddings (.ok ()) f t = (.ok (), t.map (applyEmb f))) := by
  intro f t
  exact ⟨fetch_resources_sorted t, fetch_resources_perm t,
    fun hf hnd hne => update_embeddings_success f hf t hnd hne⟩

theorem backfill_processes_in_id_order_witness :
    update_embeddings (.ok ()) (fun _ => .ok [2]) sample_table =
      (.ok (), sample_table.map (applyEmb (fun _ => .ok [2]))) :=
  (backfill_processes_in_id_order (fun _ => .ok [2]) sample_table).2.2
    (fun _ => ⟨[2], rfl⟩) (by decide) (by decide)
